import Mathlib

/-!
Verification of the teams operator (`src/part-five/operator/teams_operator.py`).

The Python source is shallowly embedded below:
* `sanitize_namespace_name` mirrors `TeamsOperator.sanitize_namespace_name`
  character by character (the per-character predicates model Python's
  `str.lower` / `str.isalnum` on ASCII text).
* `reconcile_teams` mirrors `TeamsOperator.reconcile_teams`; the external
  cluster is modelled by outcome oracles, and the `aiohttp` fetch by a
  `FetchResult` (every failure branch of `fetch_teams` returns the empty
  list, exactly as in the source).
* `run` / `runLoop` mirror `TeamsOperator.run`: the initial reconciliation
  happens outside the `try`/`except`, the looped ones inside it.
-/

/-- A team as returned by the Teams API: `{id, name}`. -/
structure Team where
  id : String
  name : String

/-- Result of `create_namespace`'s call into the cluster: the namespace was
created, already existed (HTTP 409), or the call failed in any other way. -/
inductive CreateOutcome
  | created
  | alreadyExists
  | failed

/-- Result of `delete_namespace`'s call into the cluster. -/
inductive DeleteOutcome
  | deleted
  | notFound
  | failed

/-- Return value of `TeamsOperator.create_namespace`: `True` on success and on
`ApiException` with status 409 (already exists), `False` on any other error. -/
def create_namespace : CreateOutcome → Bool
  | .created => true
  | .alreadyExists => true
  | .failed => false

/-- Return value of `TeamsOperator.delete_namespace`: `True` on success and on
`ApiException` with status 404 (not found), `False` on any other error. -/
def delete_namespace : DeleteOutcome → Bool
  | .deleted => true
  | .notFound => true
  | .failed => false

/-! ### Python dict operations

`self.team_namespaces` is a Python `dict`; we embed it as an association list
with unique keys, in insertion order, exactly as a `dict` behaves. -/

/-- `d[k]` lookup (`None` when absent): the dict read used by the operator. -/
def dictGet : List (String × String) → String → Option String
  | [], _ => none
  | (k', v) :: rest, k => if k' = k then some v else dictGet rest k

/-- `d[k] = v`: replace the value in place when the key exists, otherwise
append the new entry (Python dict update semantics). -/
def dictSet : List (String × String) → String → String → List (String × String)
  | [], k, v => [(k, v)]
  | (k', v') :: rest, k, v =>
      if k' = k then (k, v) :: rest else (k', v') :: dictSet rest k v

/-- `del d[k]`: remove the entry for `k` (dict keys are unique). -/
def dictDel : List (String × String) → String → List (String × String)
  | [], _ => []
  | (k', v') :: rest, k =>
      if k' = k then dictDel rest k else (k', v') :: dictDel rest k

/-! ### Name sanitization (`TeamsOperator.sanitize_namespace_name`) -/

/-- A lowercase ASCII letter or digit. -/
def isLowerAlnum (c : Char) : Bool :=
  ('a' ≤ c && c ≤ 'z') || ('0' ≤ c && c ≤ '9')

/-- Mirrors Python `namespace.split('-')`: split on every hyphen, keeping
empty segments (so `"--"` splits into three empty segments). -/
def splitHyphens : List Char → List (List Char)
  | [] => [[]]
  | c :: rest =>
      match splitHyphens rest with
      | [] => [[]]
      | seg :: segs => if c = '-' then [] :: seg :: segs else (c :: seg) :: segs

/-- Mirrors Python `'-'.join(segments)`. -/
def joinHyphens : List (List Char) → List Char
  | [] => []
  | [seg] => seg
  | seg :: rest => seg ++ '-' :: joinHyphens rest

/-- `'-'.join(filter(None, namespace.split('-')))`: collapse runs of hyphens
(and drop leading/trailing ones) by splitting, dropping empty segments and
rejoining. -/
def collapseHyphens (s : List Char) : List Char :=
  joinHyphens ((splitHyphens s).filter (fun seg => seg ≠ []))

/-- Python `namespace.lstrip('-')`. -/
def lstripHyphens (s : List Char) : List Char :=
  s.dropWhile (fun c => c = '-')

/-- Python `namespace.rstrip('-')`. -/
def rstripHyphens (s : List Char) : List Char :=
  (s.reverse.dropWhile (fun c => c = '-')).reverse

/-- Python `namespace.strip('-')`. -/
def stripHyphens (s : List Char) : List Char :=
  rstripHyphens (lstripHyphens s)

/-- The namespace prefix prepended by `sanitize_namespace_name`
(`f"team-{namespace}"`). -/
def teamNameStart : List Char := ['t', 'e', 'a', 'm', '-']

/-- `TeamsOperator.sanitize_namespace_name`, step by step on the character
list of the input:
1. `team_name.lower()` — `Char.toLower` (Python's `lower` on ASCII);
2. `''.join(c if c.isalnum() else '-' for c in namespace)` —
   `Char.isAlphanum` (Python's `isalnum` on ASCII);
3. `'-'.join(filter(None, namespace.split('-')))`;
4. `namespace.strip('-')`;
5. `if len(namespace) > 63: namespace = namespace[:63].rstrip('-')`;
6. `f"team-{namespace}"`. -/
def sanitizeCore (s : List Char) : List Char :=
  let s1 := s.map Char.toLower
  let s2 := s1.map (fun c => if c.isAlphanum then c else '-')
  let s3 := collapseHyphens s2
  let s4 := stripHyphens s3
  let s5 := if s4.length > 63 then rstripHyphens (s4.take 63) else s4
  teamNameStart ++ s5

/-- `TeamsOperator.sanitize_namespace_name` on `String`s. -/
def sanitize_namespace_name (team_name : String) : String :=
  String.mk (sanitizeCore team_name.data)

/-! ### The reconciliation cycle (`TeamsOperator.reconcile_teams`) -/

/-- The list returned by `TeamsOperator.fetch_teams`: the parsed body on
HTTP 200, and the empty list on a connection error, a non-200 status, or any
other exception (every failure branch of `fetch_teams` is `return []`). -/
inductive FetchResult
  | ok (teams : List Team)
  | connError
  | httpError (status : Nat)
  | unexpectedError

/-- The value `teams = await self.fetch_teams()` seen by `reconcile_teams`. -/
def fetch_teams_result : FetchResult → List Team
  | .ok teams => teams
  | .connError => []
  | .httpError _ => []
  | .unexpectedError => []

/-- `current_teams[team_id]`: the dict comprehension
`{team['id']: team for team in teams}` keeps, for each id, the last team in
the list with that id. -/
def currentTeamLookup (teams : List Team) (team_id : String) : Option Team :=
  (teams.filter (fun t => t.id = team_id)).getLast?

/-- `current_team_ids = set(current_teams.keys())`. -/
def currentTeamIds (teams : List Team) : Finset String :=
  (teams.map Team.id).toFinset

/-- `new_teams = current_team_ids - self.known_teams`. -/
def new_teams (current_team_ids known_teams : Finset String) : Finset String :=
  current_team_ids \ known_teams

/-- `deleted_teams = self.known_teams - current_team_ids`. -/
def deleted_teams (known_teams current_team_ids : Finset String) : Finset String :=
  known_teams \ current_team_ids

/-- The operator's in-memory state (`self.known_teams`,
`self.team_namespaces`), both empty in `__init__`. -/
structure OpState where
  known_teams : Finset String
  team_namespaces : List (String × String)

/-- One cycle's result: the state after the cycle, plus the arguments of every
`create_namespace` call (`team_id, team_name, namespace_name`) and every
`delete_namespace` call (`namespace_name, team_name`) issued during it. -/
structure CycleResult where
  state : OpState
  createCalls : List (String × String × String)
  deleteCalls : List (String × String)

/-- The body of the `for team_id in new_teams` loop of `reconcile_teams`:
look the team up, sanitize its name, call `create_namespace`, and record the
mapping only when that call returned `True`.  The accumulator carries
`self.team_namespaces` and the create calls issued so far. -/
def createLoopStep (teams : List Team) (co : String → CreateOutcome)
    (acc : List (String × String) × List (String × String × String))
    (team_id : String) :
    List (String × String) × List (String × String × String) :=
  match currentTeamLookup teams team_id with
  | none => acc
  | some team =>
      let namespace_name := sanitize_namespace_name team.name
      let calls := acc.2 ++ [(team_id, team.name, namespace_name)]
      if create_namespace (co team_id) then
        (dictSet acc.1 team_id namespace_name, calls)
      else
        (acc.1, calls)

/-- The body of the `for team_id in deleted_teams` loop of `reconcile_teams`:
skip ids absent from `self.team_namespaces`, call `delete_namespace` with the
recorded name (and the fallback team name `f"team-{team_id}"`), and drop the
mapping only when that call returned `True`. -/
def deleteLoopStep (dout : String → DeleteOutcome)
    (acc : List (String × String) × List (String × String))
    (team_id : String) :
    List (String × String) × List (String × String) :=
  match dictGet acc.1 team_id with
  | none => acc
  | some namespace_name =>
      let calls := acc.2 ++ [(namespace_name, "team-" ++ team_id)]
      if delete_namespace (dout team_id) then
        (dictDel acc.1 team_id, calls)
      else
        (acc.1, calls)

/-- Iteration over a Python `set` (its order is unspecified; we fix sorted
order, and every property proved below is order-independent). -/
def setToList (s : Finset String) : List String :=
  Quotient.liftOn s.val (fun l => l.insertionSort (· ≤ ·)) (fun a b hab =>
    List.eq_of_perm_of_sorted
      (((List.perm_insertionSort _ a).trans hab).trans
        (List.perm_insertionSort _ b).symm)
      (List.sorted_insertionSort _ a) (List.sorted_insertionSort _ b))

/-- `TeamsOperator.reconcile_teams`, as a function of the pre-cycle state, the
fetch outcome, and the cluster's per-team create/delete outcomes.  The final
`self.known_teams = current_team_ids` assignment is unconditional, exactly as
in the source. -/
def reconcile_teams (st : OpState) (fr : FetchResult)
    (co : String → CreateOutcome) (dout : String → DeleteOutcome) :
    CycleResult :=
  let teams := fetch_teams_result fr
  let current_team_ids := currentTeamIds teams
  let newTeams := new_teams current_team_ids st.known_teams
  let afterCreate := (setToList newTeams).foldl (createLoopStep teams co)
    (st.team_namespaces, [])
  let deletedTeams := deleted_teams st.known_teams current_team_ids
  let afterDelete := (setToList deletedTeams).foldl (deleteLoopStep dout)
    (afterCreate.1, [])
  { state := { known_teams := current_team_ids, team_namespaces := afterDelete.1 },
    createCalls := afterCreate.2,
    deleteCalls := afterDelete.2 }

/-- The effect on the operator state of handling one id from `new_teams`
(lines 141–147 of the source): sanitize the team's name, call
`create_namespace`, and record `team_namespaces[team_id] = namespace_name`
exactly when that call returned `True`.  `self.known_teams` is not touched by
this path (it is overwritten at the end of the cycle). -/
def handle_new_team (st : OpState) (team : Team) (outcome : CreateOutcome) :
    OpState :=
  let namespace_name := sanitize_namespace_name team.name
  if create_namespace outcome then
    { st with team_namespaces := dictSet st.team_namespaces team.id namespace_name }
  else
    st

/-- A sequence of completed reconciliation cycles, each with its own fetch
outcome and cluster outcomes. -/
def runCycles (st : OpState)
    (cycles : List (FetchResult × (String → CreateOutcome) × (String → DeleteOutcome))) :
    OpState :=
  cycles.foldl (fun s c => (reconcile_teams s c.1 c.2.1 c.2.2).state) st

/-! ### The outer loop (`TeamsOperator.run`) -/

/-- What one scheduled reconciliation attempt does: runs to completion, raises
an unexpected exception out of `reconcile_teams` (e.g. a payload that is not a
list of dicts with `id`/`name`), or is interrupted by `KeyboardInterrupt`. -/
inductive CycleBehavior
  | completes (fr : FetchResult) (co : String → CreateOutcome)
      (dout : String → DeleteOutcome)
  | raisesError
  | interrupted

/-- Observable fate of the operator after consuming a list of cycle
behaviors. -/
inductive RunOutcome
  | crashed
  | stopped (st : OpState)
  | looping (st : OpState)

/-- The `while True` loop of `TeamsOperator.run`: each iteration sleeps and
reconciles inside `try`/`except`, so an unexpected error is caught (the loop
sleeps and continues with the state reached so far) and `KeyboardInterrupt`
breaks out of the loop. -/
def runLoop (st : OpState) : List CycleBehavior → RunOutcome
  | [] => .looping st
  | .completes fr co dout :: rest =>
      runLoop (reconcile_teams st fr co dout).state rest
  | .raisesError :: rest => runLoop st rest
  | .interrupted :: _ => .stopped st

/-- `TeamsOperator.run`: the initial `await self.reconcile_teams()` happens
before the `while True:` loop and outside any `try`/`except`, so an exception
raised by the first cycle propagates out of `run` and terminates the
operator. -/
def run : List CycleBehavior → RunOutcome
  | [] => .looping ⟨∅, []⟩
  | .completes fr co dout :: rest =>
      runLoop (reconcile_teams ⟨∅, []⟩ fr co dout).state rest
  | .raisesError :: _ => .crashed
  | .interrupted :: _ => .crashed


/-! ### Dictionary lemmas -/

theorem dictGet_dictSet_self (d : List (String × String)) (k v : String) :
    dictGet (dictSet d k v) k = some v := by
  induction d with
  | nil => simp [dictSet, dictGet]
  | cons p rest ih =>
      obtain ⟨k', v'⟩ := p
      by_cases h : k' = k
      · simp [dictSet, dictGet, h]
      · simp [dictSet, dictGet, h, ih]

theorem dictGet_dictSet_ne (d : List (String × String)) (k v q : String)
    (h : q ≠ k) : dictGet (dictSet d k v) q = dictGet d q := by
  have hkq : ¬k = q := fun hh => h hh.symm
  induction d with
  | nil => simp [dictSet, dictGet, hkq]
  | cons p rest ih =>
      obtain ⟨k', v'⟩ := p
      by_cases hk : k' = k
      · subst hk
        simp [dictSet, dictGet, hkq]
      · simp [dictSet, dictGet, hk, ih]

theorem dictGet_dictDel_self (d : List (String × String)) (k : String) :
    dictGet (dictDel d k) k = none := by
  induction d with
  | nil => simp [dictDel, dictGet]
  | cons p rest ih =>
      obtain ⟨k', v'⟩ := p
      by_cases h : k' = k
      · simp [dictDel, dictGet, h, ih]
      · simp [dictDel, dictGet, h, ih]

theorem dictGet_dictDel_ne (d : List (String × String)) (k q : String)
    (h : q ≠ k) : dictGet (dictDel d k) q = dictGet d q := by
  have hkq : ¬k = q := fun hh => h hh.symm
  induction d with
  | nil => simp [dictDel, dictGet]
  | cons p rest ih =>
      obtain ⟨k', v'⟩ := p
      by_cases hk : k' = k
      · subst hk
        simp [dictDel, dictGet, hkq, ih]
      · simp [dictDel, dictGet, hk, ih]

theorem dictSet_dictSet_self (d : List (String × String)) (k v : String) :
    dictSet (dictSet d k v) k v = dictSet d k v := by
  induction d with
  | nil => simp [dictSet]
  | cons p rest ih =>
      obtain ⟨k', v'⟩ := p
      by_cases h : k' = k
      · simp [dictSet, h]
      · simp [dictSet, h, ih]

/-! ### Set-iteration lemmas -/

theorem mem_setToList {s : Finset String} {a : String} :
    a ∈ setToList s ↔ a ∈ s := by
  rcases s with ⟨m, hm⟩
  induction m using Quotient.inductionOn with
  | h l =>
      show a ∈ l.insertionSort (· ≤ ·) ↔ _
      rw [(List.perm_insertionSort (· ≤ ·) l).mem_iff]
      simp [Finset.mem_mk]

theorem setToList_nodup (s : Finset String) : (setToList s).Nodup := by
  rcases s with ⟨m, hm⟩
  induction m using Quotient.inductionOn with
  | h l =>
      show (l.insertionSort (· ≤ ·)).Nodup
      exact ((List.perm_insertionSort (· ≤ ·) l).nodup_iff).mpr hm

/-! ### Lemmas about the create loop -/

theorem createLoopStep_get_ne (teams : List Team) (co : String → CreateOutcome)
    (acc : List (String × String) × List (String × String × String))
    (a tid : String) (h : tid ≠ a) :
    dictGet (createLoopStep teams co acc a).1 tid = dictGet acc.1 tid := by
  unfold createLoopStep
  cases currentTeamLookup teams a with
  | none => rfl
  | some t =>
      by_cases hc : create_namespace (co a) = true
      · simp [hc, dictGet_dictSet_ne _ _ _ _ h]
      · simp [hc]

theorem createLoopStep_get_failed (teams : List Team)
    (co : String → CreateOutcome)
    (acc : List (String × String) × List (String × String × String))
    (tid : String) (h : create_namespace (co tid) = false) :
    dictGet (createLoopStep teams co acc tid).1 tid = dictGet acc.1 tid := by
  unfold createLoopStep
  cases currentTeamLookup teams tid with
  | none => rfl
  | some t => simp [h]

theorem createFold_get_not_mem (teams : List Team) (co : String → CreateOutcome)
    (L : List String) :
    ∀ (acc : List (String × String) × List (String × String × String))
      (tid : String), tid ∉ L →
      dictGet (L.foldl (createLoopStep teams co) acc).1 tid
        = dictGet acc.1 tid := by
  induction L with
  | nil => intro acc tid _; rfl
  | cons a rest ih =>
      intro acc tid h
      have hne : tid ≠ a := fun hh => h (hh ▸ List.mem_cons_self a rest)
      have hrest : tid ∉ rest := fun hh => h (List.mem_cons_of_mem a hh)
      rw [List.foldl_cons, ih _ tid hrest,
        createLoopStep_get_ne teams co acc a tid hne]

theorem createFold_get_failed (teams : List Team) (co : String → CreateOutcome)
    (L : List String) :
    ∀ (acc : List (String × String) × List (String × String × String))
      (tid : String), create_namespace (co tid) = false →
      dictGet (L.foldl (createLoopStep teams co) acc).1 tid
        = dictGet acc.1 tid := by
  induction L with
  | nil => intro acc tid _; rfl
  | cons a rest ih =>
      intro acc tid h
      rw [List.foldl_cons, ih _ tid h]
      by_cases ha : tid = a
      · subst ha
        exact createLoopStep_get_failed teams co acc tid h
      · exact createLoopStep_get_ne teams co acc a tid ha

theorem createFold_get_mem (teams : List Team) (co : String → CreateOutcome)
    (L : List String) :
    ∀ (acc : List (String × String) × List (String × String × String))
      (tid : String) (t : Team), L.Nodup → tid ∈ L →
      currentTeamLookup teams tid = some t →
      create_namespace (co tid) = true →
      dictGet (L.foldl (createLoopStep teams co) acc).1 tid
        = some (sanitize_namespace_name t.name) := by
  induction L with
  | nil => intro acc tid t _ hmem; cases hmem
  | cons a rest ih =>
      intro acc tid t hnd hmem hlook hco
      rw [List.foldl_cons]
      by_cases ha : tid = a
      · subst ha
        have hrest : tid ∉ rest := (List.nodup_cons.mp hnd).1
        rw [createFold_get_not_mem teams co rest _ tid hrest]
        unfold createLoopStep
        rw [hlook]
        simp [hco, dictGet_dictSet_self]
      · have hmem' : tid ∈ rest := (List.mem_cons.mp hmem).resolve_left ha
        exact ih _ tid t (List.nodup_cons.mp hnd).2 hmem' hlook hco

theorem createFold_isSome (teams : List Team) (co : String → CreateOutcome)
    (L : List String) :
    ∀ (acc : List (String × String) × List (String × String × String))
      (tid : String),
      (dictGet (L.foldl (createLoopStep teams co) acc).1 tid).isSome = true →
      (dictGet acc.1 tid).isSome = true ∨ tid ∈ L := by
  induction L with
  | nil => intro acc tid h; exact Or.inl h
  | cons a rest ih =>
      intro acc tid h
      rw [List.foldl_cons] at h
      rcases ih _ tid h with h' | h'
      · by_cases ha : tid = a
        · exact Or.inr (ha ▸ List.mem_cons_self a rest)
        · rw [createLoopStep_get_ne teams co acc a tid ha] at h'
          exact Or.inl h'
      · exact Or.inr (List.mem_cons_of_mem a h')

/-! ### Lemmas about the delete loop -/

theorem deleteLoopStep_get_ne (dout : String → DeleteOutcome)
    (acc : List (String × String) × List (String × String))
    (a tid : String) (h : tid ≠ a) :
    dictGet (deleteLoopStep dout acc a).1 tid = dictGet acc.1 tid := by
  unfold deleteLoopStep
  cases dictGet acc.1 a with
  | none => rfl
  | some ns =>
      by_cases hd : delete_namespace (dout a) = true
      · simp [hd, dictGet_dictDel_ne _ _ _ h]
      · simp [hd]

theorem deleteLoopStep_get_failed (dout : String → DeleteOutcome)
    (acc : List (String × String) × List (String × String))
    (tid : String) (h : delete_namespace (dout tid) = false) :
    dictGet (deleteLoopStep dout acc tid).1 tid = dictGet acc.1 tid := by
  unfold deleteLoopStep
  cases hg : dictGet acc.1 tid with
  | none => exact hg
  | some ns => simp [h, hg]

theorem deleteFold_get_not_mem (dout : String → DeleteOutcome)
    (L : List String) :
    ∀ (acc : List (String × String) × List (String × String))
      (tid : String), tid ∉ L →
      dictGet (L.foldl (deleteLoopStep dout) acc).1 tid = dictGet acc.1 tid := by
  induction L with
  | nil => intro acc tid _; rfl
  | cons a rest ih =>
      intro acc tid h
      have hne : tid ≠ a := fun hh => h (hh ▸ List.mem_cons_self a rest)
      have hrest : tid ∉ rest := fun hh => h (List.mem_cons_of_mem a hh)
      rw [List.foldl_cons, ih _ tid hrest,
        deleteLoopStep_get_ne dout acc a tid hne]

theorem deleteFold_get_failed (dout : String → DeleteOutcome)
    (L : List String) :
    ∀ (acc : List (String × String) × List (String × String))
      (tid : String), delete_namespace (dout tid) = false →
      dictGet (L.foldl (deleteLoopStep dout) acc).1 tid = dictGet acc.1 tid := by
  induction L with
  | nil => intro acc tid _; rfl
  | cons a rest ih =>
      intro acc tid h
      rw [List.foldl_cons, ih _ tid h]
      by_cases ha : tid = a
      · subst ha
        exact deleteLoopStep_get_failed dout acc tid h
      · exact deleteLoopStep_get_ne dout acc a tid ha

theorem deleteFold_none_mono (dout : String → DeleteOutcome)
    (L : List String) :
    ∀ (acc : List (String × String) × List (String × String))
      (tid : String), dictGet acc.1 tid = none →
      dictGet (L.foldl (deleteLoopStep dout) acc).1 tid = none := by
  induction L with
  | nil => intro acc tid h; exact h
  | cons a rest ih =>
      intro acc tid h
      rw [List.foldl_cons]
      apply ih
      by_cases ha : tid = a
      · subst ha
        unfold deleteLoopStep
        rw [h]
        exact h
      · rw [deleteLoopStep_get_ne dout acc a tid ha]
        exact h

theorem deleteFold_get_mem_success (dout : String → DeleteOutcome)
    (L : List String) :
    ∀ (acc : List (String × String) × List (String × String))
      (tid : String), tid ∈ L → delete_namespace (dout tid) = true →
      dictGet (L.foldl (deleteLoopStep dout) acc).1 tid = none := by
  induction L with
  | nil => intro acc tid hmem; cases hmem
  | cons a rest ih =>
      intro acc tid hmem hdo
      rw [List.foldl_cons]
      by_cases ha : tid = a
      · subst ha
        apply deleteFold_none_mono
        unfold deleteLoopStep
        cases hg : dictGet acc.1 tid with
        | none => exact hg
        | some ns => simp [hdo, dictGet_dictDel_self]
      · exact ih _ tid ((List.mem_cons.mp hmem).resolve_left ha) hdo

theorem deleteFold_isSome (dout : String → DeleteOutcome) (L : List String)
    (acc : List (String × String) × List (String × String))
    (tid : String)
    (h : (dictGet (L.foldl (deleteLoopStep dout) acc).1 tid).isSome = true) :
    (dictGet acc.1 tid).isSome = true := by
  cases hg : dictGet acc.1 tid with
  | some ns => rfl
  | none =>
      rw [deleteFold_none_mono dout L acc tid hg] at h
      cases h

/-! ### Unfolding the cycle -/

theorem reconcile_teams_state_eq (st : OpState) (fr : FetchResult)
    (co : String → CreateOutcome) (dout : String → DeleteOutcome) :
    (reconcile_teams st fr co dout).state =
      { known_teams := currentTeamIds (fetch_teams_result fr),
        team_namespaces :=
          ((setToList (deleted_teams st.known_teams
              (currentTeamIds (fetch_teams_result fr)))).foldl
            (deleteLoopStep dout)
            (((setToList (new_teams (currentTeamIds (fetch_teams_result fr))
                st.known_teams)).foldl
              (createLoopStep (fetch_teams_result fr) co)
              (st.team_namespaces, [])).1, [])).1 } := rfl

theorem mem_currentTeamIds_iff_lookup {teams : List Team} {tid : String} :
    tid ∈ currentTeamIds teams ↔ (currentTeamLookup teams tid).isSome = true := by
  unfold currentTeamIds currentTeamLookup
  rw [List.mem_toFinset, List.getLast?_isSome]
  constructor
  · intro h
    rcases List.mem_map.mp h with ⟨t, ht, hid⟩
    exact List.ne_nil_of_mem (List.mem_filter.mpr ⟨ht, by simp [hid]⟩)
  · intro h
    rcases List.exists_mem_of_ne_nil _ h with ⟨t, ht⟩
    rcases List.mem_filter.mp ht with ⟨ht', hid⟩
    exact List.mem_map.mpr ⟨t, ht', by simpa using hid⟩

/-! ### Claim theorems -/

/-- C10: after every `reconcile_teams` cycle that runs to completion,
`known_teams` equals exactly the set of ids present in that cycle's fetched
teams list, independently of whether the individual create and delete
operations in the cycle succeeded or failed. -/
theorem C10_known_teams_overwritten (st : OpState) (fr : FetchResult)
    (co : String → CreateOutcome) (dout : String → DeleteOutcome) :
    (reconcile_teams st fr co dout).state.known_teams
      = currentTeamIds (fetch_teams_result fr) := rfl

/-- C6: for every known id set K and desired id set D, the diff computed by a
cycle satisfies `additions = D − K` and `removals = K − D`, and the two are
disjoint. -/
theorem C6_diff_correct (K D : Finset String) :
    new_teams D K = D \ K ∧ deleted_teams K D = K \ D ∧
      Disjoint (new_teams D K) (deleted_teams K D) :=
  ⟨rfl, rfl, disjoint_sdiff_sdiff⟩

/-- C7: running the create path twice for the same team, where the second
create call returns "already exists", leaves the operator state (known teams
and team-to-namespace mapping) identical to running it once. -/
theorem C7_create_idempotent (st : OpState) (team : Team) :
    handle_new_team (handle_new_team st team .created) team .alreadyExists
      = handle_new_team st team .created := by
  simp [handle_new_team, create_namespace, dictSet_dictSet_self]

/-- C1 (code behavior at the failing input): with one tracked team and a
mapped namespace, a cycle whose fetch fails with a connection error invokes
`delete_namespace("team-alpha", ...)` and wipes both `known_teams` and
`team_namespaces` — the code treats the failed fetch as an empty team list,
contradicting the claim that such a cycle mutates nothing and deletes
nothing. -/
theorem C1_fetch_failure_deletes :
    (reconcile_teams ⟨{"1"}, [("1", "team-alpha")]⟩ FetchResult.connError
        (fun _ => CreateOutcome.created)
        (fun _ => DeleteOutcome.deleted)).deleteCalls
      = [("team-alpha", "team-1")] ∧
      (reconcile_teams ⟨{"1"}, [("1", "team-alpha")]⟩ FetchResult.connError
        (fun _ => CreateOutcome.created)
        (fun _ => DeleteOutcome.deleted)).state.known_teams = ∅ ∧
      (reconcile_teams ⟨{"1"}, [("1", "team-alpha")]⟩ FetchResult.connError
        (fun _ => CreateOutcome.created)
        (fun _ => DeleteOutcome.deleted)).state.team_namespaces = [] := by
  decide

/-- C3 (counterexample): a create for id "3" fails on cycle 1, yet "3" is in
`known_teams` after the cycle, and cycle 2 with the unchanged desired set
issues no create call at all — the failed create is not retried. -/
theorem C3_counterexample :
    let st1 := (reconcile_teams ⟨∅, []⟩ (.ok [⟨"3", "Gamma"⟩])
      (fun _ => CreateOutcome.failed) (fun _ => DeleteOutcome.deleted)).state
    ("3" ∈ st1.known_teams) ∧
      (reconcile_teams st1 (.ok [⟨"3", "Gamma"⟩]) (fun _ => CreateOutcome.failed)
        (fun _ => DeleteOutcome.deleted)).createCalls = [] := by
  decide

/-- C3 (amended): when the create operation for a fetched team id returns the
"failed" outcome, the id gets no entry in `team_namespaces`, but it is
nevertheless added to `known_teams` (which is overwritten with the fetched id
set), so the id does not appear in the next cycle's additions
(`new_teams`) and the create is not retried. -/
theorem C3_amended_failed_create (st : OpState) (teams : List Team)
    (co : String → CreateOutcome) (dout : String → DeleteOutcome) (tid : String)
    (hcur : tid ∈ currentTeamIds teams) (hco : co tid = CreateOutcome.failed) :
    let r := reconcile_teams st (.ok teams) co dout
    dictGet r.state.team_namespaces tid = dictGet st.team_namespaces tid ∧
      tid ∈ r.state.known_teams ∧
      tid ∉ new_teams (currentTeamIds teams) r.state.known_teams := by
  intro r
  have hcf : create_namespace (co tid) = false := by rw [hco]; rfl
  have hnotdel : tid ∉ setToList (deleted_teams st.known_teams
      (currentTeamIds (fetch_teams_result (.ok teams)))) := by
    rw [mem_setToList]
    intro hmem
    exact (Finset.mem_sdiff.mp hmem).2 hcur
  refine ⟨?_, ?_, ?_⟩
  · show dictGet (reconcile_teams st (.ok teams) co dout).state.team_namespaces tid = _
    rw [reconcile_teams_state_eq]
    rw [deleteFold_get_not_mem _ _ _ tid hnotdel]
    exact createFold_get_failed _ _ _ _ tid hcf
  · show tid ∈ (reconcile_teams st (.ok teams) co dout).state.known_teams
    rw [reconcile_teams_state_eq]
    exact hcur
  · show tid ∉ new_teams (currentTeamIds teams)
      (reconcile_teams st (.ok teams) co dout).state.known_teams
    rw [reconcile_teams_state_eq]
    intro hmem
    exact (Finset.mem_sdiff.mp hmem).2 hcur

/-- C3 witness: the amended claim instantiated at a concrete failed create. -/
theorem C3_amended_witness :
    ("3" ∈ currentTeamIds [⟨"3", "Gamma"⟩]) ∧
      ((fun _ : String => CreateOutcome.failed) "3" = CreateOutcome.failed) ∧
      (let r := reconcile_teams ⟨∅, []⟩ (.ok [⟨"3", "Gamma"⟩])
        (fun _ => CreateOutcome.failed) (fun _ => DeleteOutcome.deleted)
      dictGet r.state.team_namespaces "3"
          = dictGet (OpState.mk ∅ []).team_namespaces "3" ∧
        "3" ∈ r.state.known_teams ∧
        "3" ∉ new_teams (currentTeamIds [⟨"3", "Gamma"⟩]) r.state.known_teams) :=
  ⟨by decide, rfl,
    C3_amended_failed_create ⟨∅, []⟩ [⟨"3", "Gamma"⟩] (fun _ => CreateOutcome.failed)
      (fun _ => DeleteOutcome.deleted) "3" (by decide) rfl⟩

/-- C4 (counterexample): team "1" is tracked with a mapped namespace; a cycle
without it whose delete fails leaves the mapping in `team_namespaces` but
removes "1" from `known_teams` — the claim that the id stays in both
structures is false. -/
theorem C4_counterexample :
    let st1 := (reconcile_teams ⟨∅, []⟩ (.ok [⟨"1", "Alpha"⟩])
      (fun _ => CreateOutcome.created) (fun _ => DeleteOutcome.deleted)).state
    let st2 := (reconcile_teams st1 (.ok []) (fun _ => CreateOutcome.created)
      (fun _ => DeleteOutcome.failed)).state
    dictGet st2.team_namespaces "1" = some "team-alpha" ∧
      "1" ∉ st2.known_teams := by
  decide

/-- C4 (amended): when the delete operation for a removed team id returns the
"failed" outcome, the id keeps its entry in `team_namespaces`, but it is
removed from `known_teams` (which is overwritten with the fetched id set), so
the id cannot appear in any later cycle's removals (`deleted_teams`) while it
stays out of the desired set — the delete is not retried. -/
theorem C4_amended_failed_delete (st : OpState) (teams : List Team)
    (co : String → CreateOutcome) (dout : String → DeleteOutcome) (tid : String)
    (hknown : tid ∈ st.known_teams) (hcur : tid ∉ currentTeamIds teams)
    (hdo : dout tid = DeleteOutcome.failed) :
    let r := reconcile_teams st (.ok teams) co dout
    dictGet r.state.team_namespaces tid = dictGet st.team_namespaces tid ∧
      tid ∉ r.state.known_teams ∧
      ∀ later : Finset String, tid ∉ deleted_teams r.state.known_teams later := by
  intro r
  have hdf : delete_namespace (dout tid) = false := by rw [hdo]; rfl
  have hnotnew : tid ∉ setToList (new_teams
      (currentTeamIds (fetch_teams_result (.ok teams))) st.known_teams) := by
    rw [mem_setToList]
    intro hmem
    exact (Finset.mem_sdiff.mp hmem).2 hknown
  refine ⟨?_, ?_, ?_⟩
  · show dictGet (reconcile_teams st (.ok teams) co dout).state.team_namespaces tid = _
    rw [reconcile_teams_state_eq]
    rw [deleteFold_get_failed _ _ _ tid hdf]
    exact createFold_get_not_mem _ _ _ _ tid hnotnew
  · show tid ∉ (reconcile_teams st (.ok teams) co dout).state.known_teams
    rw [reconcile_teams_state_eq]
    exact hcur
  · intro later hmem
    have h1 : tid ∈ (reconcile_teams st (.ok teams) co dout).state.known_teams :=
      (Finset.mem_sdiff.mp hmem).1
    rw [reconcile_teams_state_eq] at h1
    exact hcur h1

/-- C4 witness: the amended claim instantiated at a concrete failed delete. -/
theorem C4_amended_witness :
    ("1" ∈ (OpState.mk {"1"} [("1", "team-alpha")]).known_teams) ∧
      ("1" ∉ currentTeamIds []) ∧
      ((fun _ : String => DeleteOutcome.failed) "1" = DeleteOutcome.failed) ∧
      (let r := reconcile_teams ⟨{"1"}, [("1", "team-alpha")]⟩ (.ok [])
        (fun _ => CreateOutcome.created) (fun _ => DeleteOutcome.failed)
      dictGet r.state.team_namespaces "1"
          = dictGet (OpState.mk {"1"} [("1", "team-alpha")]).team_namespaces "1" ∧
        "1" ∉ r.state.known_teams ∧
        ∀ later : Finset String, "1" ∉ deleted_teams r.state.known_teams later) :=
  ⟨by decide, by decide, rfl,
    C4_amended_failed_delete ⟨{"1"}, [("1", "team-alpha")]⟩ []
      (fun _ => CreateOutcome.created) (fun _ => DeleteOutcome.failed) "1"
      (by decide) (by decide) rfl⟩

/-- C9 (counterexample): an unexpected error raised during the very first
reconciliation (run before the `while True:` loop and outside any
`try`/`except`) terminates the operator. -/
theorem C9_counterexample :
    run [CycleBehavior.raisesError] = RunOutcome.crashed := rfl

/-- C9 (amended): an unexpected error raised from a cycle executed inside the
main loop is caught and the loop continues with the next scheduled cycle, and
the loop itself never terminates abnormally; but an unexpected error in the
initial reconciliation at startup is not caught and terminates the
operator. -/
theorem C9_amended_loop_robust :
    (∀ st rest, runLoop st (CycleBehavior.raisesError :: rest) = runLoop st rest) ∧
      (∀ st behaviors, runLoop st behaviors ≠ RunOutcome.crashed) ∧
      (∀ rest, run (CycleBehavior.raisesError :: rest) = RunOutcome.crashed) := by
  refine ⟨fun st rest => rfl, ?_, fun rest => rfl⟩
  intro st behaviors
  induction behaviors generalizing st with
  | nil => simp [runLoop]
  | cons b rest ih =>
      cases b with
      | completes fr co dout => exact ih _
      | raisesError => exact ih st
      | interrupted => simp [runLoop]

/-- One cycle preserves the key-subset invariant, provided no delete call in
that cycle returns the "failed" outcome. -/
theorem reconcile_preserves_subset (st : OpState) (fr : FetchResult)
    (co : String → CreateOutcome) (dout : String → DeleteOutcome)
    (hdel : ∀ tid, delete_namespace (dout tid) = true)
    (hinv : ∀ tid, (dictGet st.team_namespaces tid).isSome = true →
      tid ∈ st.known_teams) :
    ∀ tid,
      (dictGet (reconcile_teams st fr co dout).state.team_namespaces tid).isSome
        = true →
      tid ∈ (reconcile_teams st fr co dout).state.known_teams := by
  intro tid hsome
  rw [reconcile_teams_state_eq] at hsome ⊢
  by_cases hc : tid ∈ currentTeamIds (fetch_teams_result fr)
  · exact hc
  · exfalso
    by_cases hk : tid ∈ st.known_teams
    · have hmem : tid ∈ setToList (deleted_teams st.known_teams
          (currentTeamIds (fetch_teams_result fr))) :=
        mem_setToList.mpr (Finset.mem_sdiff.mpr ⟨hk, hc⟩)
      rw [deleteFold_get_mem_success _ _ _ tid hmem (hdel tid)] at hsome
      cases hsome
    · have h1 := deleteFold_isSome _ _ _ tid hsome
      rcases createFold_isSome _ _ _ _ tid h1 with h2 | h2
      · exact hk (hinv tid h2)
      · exact hc (Finset.mem_sdiff.mp (mem_setToList.mp h2)).1

/-- C5 (counterexample): starting from the empty state, create team "2", then
run a cycle without it whose delete fails: afterwards "2" still has an entry
in `team_namespaces` but is no longer in `known_teams`, so the key set of the
mapping is not a subset of `known_teams`. -/
theorem C5_counterexample :
    let st1 := (reconcile_teams ⟨∅, []⟩ (.ok [⟨"2", "Beta"⟩])
      (fun _ => CreateOutcome.created) (fun _ => DeleteOutcome.deleted)).state
    let st2 := (reconcile_teams st1 (.ok []) (fun _ => CreateOutcome.created)
      (fun _ => DeleteOutcome.failed)).state
    (dictGet st2.team_namespaces "2").isSome = true ∧
      "2" ∉ st2.known_teams := by
  decide

/-- C5 (amended): after every sequence of completed cycles starting from the
empty initial state in which no delete operation returns the "failed"
outcome, the key set of `team_namespaces` is a subset of `known_teams` (a
failed delete breaks the invariant, as the id stays in the mapping while
`known_teams` is overwritten without it). -/
theorem C5_amended_subset_invariant
    (cycles : List (FetchResult × (String → CreateOutcome)
      × (String → DeleteOutcome)))
    (hdel : ∀ c ∈ cycles, ∀ tid, delete_namespace (c.2.2 tid) = true) :
    ∀ tid,
      (dictGet (runCycles ⟨∅, []⟩ cycles).team_namespaces tid).isSome = true →
      tid ∈ (runCycles ⟨∅, []⟩ cycles).known_teams := by
  have main : ∀ (cs : List (FetchResult × (String → CreateOutcome)
        × (String → DeleteOutcome))) (st : OpState),
      (∀ c ∈ cs, ∀ tid, delete_namespace (c.2.2 tid) = true) →
      (∀ tid, (dictGet st.team_namespaces tid).isSome = true →
        tid ∈ st.known_teams) →
      ∀ tid, (dictGet (runCycles st cs).team_namespaces tid).isSome = true →
        tid ∈ (runCycles st cs).known_teams := by
    intro cs
    induction cs with
    | nil => intro st _ hinv; exact hinv
    | cons c rest ih =>
        intro st hdel hinv
        have hc : ∀ tid, delete_namespace (c.2.2 tid) = true :=
          hdel c (List.mem_cons_self c rest)
        have hrest : ∀ c' ∈ rest, ∀ tid, delete_namespace (c'.2.2 tid) = true :=
          fun c' hm => hdel c' (List.mem_cons_of_mem c hm)
        exact ih _ hrest (reconcile_preserves_subset st c.1 c.2.1 c.2.2 hc hinv)
  intro tid
  exact main cycles ⟨∅, []⟩ hdel (fun tid h => by cases h) tid

/-- C5 witness: the amended invariant instantiated at a concrete two-cycle
run with only successful deletes. -/
theorem C5_amended_witness :
    (∀ c ∈ [((FetchResult.ok [⟨"2", "Beta"⟩]) ,
        (fun _ : String => CreateOutcome.created),
        (fun _ : String => DeleteOutcome.deleted))], ∀ tid,
      delete_namespace (c.2.2 tid) = true) ∧
      "2" ∈ (runCycles ⟨∅, []⟩ [((FetchResult.ok [⟨"2", "Beta"⟩]) ,
        (fun _ : String => CreateOutcome.created),
        (fun _ : String => DeleteOutcome.deleted))]).known_teams := by
  have hdel : ∀ c ∈ [((FetchResult.ok [⟨"2", "Beta"⟩]) ,
      (fun _ : String => CreateOutcome.created),
      (fun _ : String => DeleteOutcome.deleted))], ∀ tid,
      delete_namespace (c.2.2 tid) = true := by
    intro c hc tid
    rw [List.mem_singleton.mp hc]
    rfl
  exact ⟨hdel, C5_amended_subset_invariant _ hdel "2" (by decide)⟩

/-- C8: starting from the empty state, after one cycle whose fetch succeeds
with the desired team list and in which every create operation returns
"created", `known_teams` equals exactly the fetched id set and every fetched
id is mapped (to the sanitized name of its team) in `team_namespaces`. -/
theorem C8_convergence (teams : List Team) (dout : String → DeleteOutcome) :
    let r := reconcile_teams ⟨∅, []⟩ (.ok teams)
      (fun _ => CreateOutcome.created) dout
    r.state.known_teams = currentTeamIds teams ∧
      ∀ tid ∈ currentTeamIds teams,
        (currentTeamLookup teams tid).isSome = true ∧
        dictGet r.state.team_namespaces tid
          = Option.map (fun t => sanitize_namespace_name t.name)
              (currentTeamLookup teams tid) := by
  intro r
  refine ⟨rfl, ?_⟩
  intro tid htid
  have hlook : (currentTeamLookup teams tid).isSome = true :=
    mem_currentTeamIds_iff_lookup.mp htid
  refine ⟨hlook, ?_⟩
  rcases Option.isSome_iff_exists.mp hlook with ⟨t, ht⟩
  show dictGet (reconcile_teams ⟨∅, []⟩ (.ok teams)
    (fun _ => CreateOutcome.created) dout).state.team_namespaces tid = _
  rw [reconcile_teams_state_eq]
  have hdel_empty : deleted_teams (OpState.mk ∅ []).known_teams
      (currentTeamIds (fetch_teams_result (.ok teams))) = ∅ :=
    Finset.empty_sdiff _
  rw [hdel_empty]
  have hempty : setToList ∅ = [] := rfl
  rw [hempty, List.foldl_nil]
  have hmem : tid ∈ setToList (new_teams
      (currentTeamIds (fetch_teams_result (.ok teams)))
      (OpState.mk ∅ []).known_teams) := by
    rw [mem_setToList]
    show tid ∈ currentTeamIds teams \ ∅
    rw [Finset.sdiff_empty]
    exact htid
  have hco : create_namespace ((fun _ : String => CreateOutcome.created) tid)
      = true := rfl
  have hres := createFold_get_mem (fetch_teams_result (.ok teams))
    (fun _ => CreateOutcome.created)
    (setToList (new_teams (currentTeamIds (fetch_teams_result (.ok teams)))
      (OpState.mk ∅ []).known_teams))
    ((OpState.mk ∅ []).team_namespaces, []) tid t (setToList_nodup _) hmem ht hco
  rw [ht]
  exact hres

/-- C8 witness: convergence instantiated at a concrete one-team list. -/
theorem C8_convergence_witness :
    ("1" ∈ currentTeamIds [⟨"1", "Alpha"⟩]) ∧
      ((currentTeamLookup [⟨"1", "Alpha"⟩] "1").isSome = true ∧
        dictGet (reconcile_teams ⟨∅, []⟩ (.ok [⟨"1", "Alpha"⟩])
            (fun _ => CreateOutcome.created)
            (fun _ => DeleteOutcome.deleted)).state.team_namespaces "1"
          = Option.map (fun t => sanitize_namespace_name t.name)
              (currentTeamLookup [⟨"1", "Alpha"⟩] "1")) :=
  ⟨by decide,
    (C8_convergence [⟨"1", "Alpha"⟩] (fun _ => DeleteOutcome.deleted)).2
      "1" (by decide)⟩

/-! ### Character-level lemmas for sanitization -/

set_option maxRecDepth 4000 in
theorem asciiStep_good :
    ∀ n : Fin 128,
      isLowerAlnum (if (Char.ofNat n.val).toLower.isAlphanum
          then (Char.ofNat n.val).toLower else '-') = true ∨
        (if (Char.ofNat n.val).toLower.isAlphanum
          then (Char.ofNat n.val).toLower else '-') = '-' := by
  decide

theorem step_good_of_ascii {c : Char} (h : c.toNat < 128) :
    isLowerAlnum (if c.toLower.isAlphanum then c.toLower else '-') = true ∨
      (if c.toLower.isAlphanum then c.toLower else '-') = '-' := by
  have hx := asciiStep_good ⟨c.toNat, h⟩
  rwa [Char.ofNat_toNat] at hx

theorem s2_chars_good {s : List Char} (h : ∀ c ∈ s, c.toNat < 128) :
    ∀ c ∈ (s.map Char.toLower).map (fun c => if c.isAlphanum then c else '-'),
      isLowerAlnum c = true ∨ c = '-' := by
  intro c hc
  rw [List.map_map] at hc
  rcases List.mem_map.mp hc with ⟨a, ha, rfl⟩
  exact step_good_of_ascii (h a ha)

theorem splitHyphens_chars (s : List Char) :
    ∀ seg ∈ splitHyphens s, ∀ c ∈ seg, c ∈ s ∧ ¬c = '-' := by
  induction s with
  | nil =>
      intro seg hseg c hc
      have hseg' : seg ∈ [([] : List Char)] := hseg
      rw [List.mem_singleton] at hseg'
      subst hseg'
      cases hc
  | cons a rest ih =>
      intro seg hseg c hc
      unfold splitHyphens at hseg
      rcases hsp : splitHyphens rest with _ | ⟨seg0, segs⟩
      · rw [hsp] at hseg
        have hseg' : seg ∈ [([] : List Char)] := hseg
        rw [List.mem_singleton] at hseg'
        subst hseg'
        cases hc
      · rw [hsp] at hseg
        have hseg' : seg ∈ (if a = '-' then ([] : List Char) :: seg0 :: segs
            else (a :: seg0) :: segs) := hseg
        by_cases ha : a = '-'
        · rw [if_pos ha] at hseg'
          rcases List.mem_cons.mp hseg' with rfl | h2
          · cases hc
          · have h3 := ih seg (by rw [hsp]; exact h2) c hc
            exact ⟨List.mem_cons_of_mem a h3.1, h3.2⟩
        · rw [if_neg ha] at hseg'
          rcases List.mem_cons.mp hseg' with rfl | h2
          · rcases List.mem_cons.mp hc with rfl | h3
            · exact ⟨List.mem_cons_self _ _, ha⟩
            · have h4 := ih seg0 (by rw [hsp]; exact List.mem_cons_self _ _) c h3
              exact ⟨List.mem_cons_of_mem a h4.1, h4.2⟩
          · have h4 := ih seg (by rw [hsp]; exact List.mem_cons_of_mem _ h2) c hc
            exact ⟨List.mem_cons_of_mem a h4.1, h4.2⟩

theorem joinHyphens_chars (segs : List (List Char)) :
    ∀ c ∈ joinHyphens segs, c = '-' ∨ ∃ seg, seg ∈ segs ∧ c ∈ seg := by
  induction segs with
  | nil => intro c hc; cases hc
  | cons seg rest ih =>
      cases rest with
      | nil =>
          intro c hc
          exact Or.inr ⟨seg, List.mem_cons_self _ _, hc⟩
      | cons seg2 rest2 =>
          intro c hc
          have hc' : c ∈ seg ++ '-' :: joinHyphens (seg2 :: rest2) := hc
          rcases List.mem_append.mp hc' with h1 | h2
          · exact Or.inr ⟨seg, List.mem_cons_self _ _, h1⟩
          · rcases List.mem_cons.mp h2 with rfl | h3
            · exact Or.inl rfl
            · rcases ih c h3 with h4 | ⟨sg, hsg, hcsg⟩
              · exact Or.inl h4
              · exact Or.inr ⟨sg, List.mem_cons_of_mem _ hsg, hcsg⟩

theorem collapseHyphens_chars (s : List Char) :
    ∀ c ∈ collapseHyphens s, c = '-' ∨ c ∈ s := by
  intro c hc
  rcases joinHyphens_chars _ c hc with h | ⟨seg, hseg, hcseg⟩
  · exact Or.inl h
  · have hsegsp : seg ∈ splitHyphens s := (List.mem_filter.mp hseg).1
    exact Or.inr ((splitHyphens_chars s seg hsegsp c hcseg).1)

/-! ### Lemmas about hyphen stripping -/

theorem dropHyphens_head (s : List Char) :
    ∀ c, ((s.dropWhile (fun x => x = '-')).head? = some c) → ¬c = '-' := by
  induction s with
  | nil => intro c h; cases h
  | cons a rest ih =>
      intro c h
      rw [List.dropWhile_cons] at h
      by_cases ha : a = '-'
      · rw [if_pos (by simp [ha])] at h
        exact ih c h
      · rw [if_neg (by simp [ha])] at h
        simp only [List.head?_cons, Option.some.injEq] at h
        exact h ▸ ha

theorem rstripHyphens_getLast (s : List Char) :
    ∀ c, ((rstripHyphens s).getLast? = some c) → ¬c = '-' := by
  intro c h
  unfold rstripHyphens at h
  rw [List.getLast?_reverse] at h
  exact dropHyphens_head _ c h

theorem rstripHyphens_length (s : List Char) :
    (rstripHyphens s).length ≤ s.length := by
  unfold rstripHyphens
  rw [List.length_reverse]
  calc (s.reverse.dropWhile (fun x => x = '-')).length
      ≤ s.reverse.length := (List.dropWhile_sublist _).length_le
    _ = s.length := List.length_reverse s

theorem mem_rstripHyphens {s : List Char} {c : Char}
    (h : c ∈ rstripHyphens s) : c ∈ s := by
  unfold rstripHyphens at h
  rw [List.mem_reverse] at h
  have h2 := List.dropWhile_subset _ h
  rwa [List.mem_reverse] at h2

theorem mem_lstripHyphens {s : List Char} {c : Char}
    (h : c ∈ lstripHyphens s) : c ∈ s :=
  List.dropWhile_subset _ h

theorem mem_stripHyphens {s : List Char} {c : Char}
    (h : c ∈ stripHyphens s) : c ∈ s :=
  mem_lstripHyphens (mem_rstripHyphens h)

/-- The grammar facts about `sanitizeCore` on ASCII input: every output
character is a lowercase ASCII alphanumeric or a hyphen, the length is at
most 68 (63 for the sanitized core plus the 5-character `team-` prefix), the
output starts with `'t'`, and it ends with an alphanumeric unless the
sanitized core is empty (in which case the output is exactly `"team-"`). -/
theorem sanitizeCore_props {s : List Char} (h : ∀ c ∈ s, c.toNat < 128) :
    (∀ c ∈ sanitizeCore s, isLowerAlnum c = true ∨ c = '-') ∧
      (sanitizeCore s).length ≤ 68 ∧
      (sanitizeCore s).head? = some 't' ∧
      (sanitizeCore s = teamNameStart ∨
        ∃ c, (sanitizeCore s).getLast? = some c ∧ isLowerAlnum c = true) := by
  have hs4good : ∀ c ∈ stripHyphens (collapseHyphens ((s.map Char.toLower).map
      (fun c => if c.isAlphanum then c else '-'))),
      isLowerAlnum c = true ∨ c = '-' := by
    intro c hc
    rcases collapseHyphens_chars _ c (mem_stripHyphens hc) with h1 | h1
    · exact Or.inr h1
    · exact s2_chars_good h c h1
  set S4 := stripHyphens (collapseHyphens ((s.map Char.toLower).map
      (fun c => if c.isAlphanum then c else '-'))) with hS4
  set S5 := if S4.length > 63 then rstripHyphens (S4.take 63) else S4 with hS5
  have hcore : sanitizeCore s = teamNameStart ++ S5 := rfl
  have hsub5 : ∀ c ∈ S5, c ∈ S4 := by
    rw [hS5]
    by_cases hlen : S4.length > 63
    · rw [if_pos hlen]
      intro c hc
      exact List.take_subset _ _ (mem_rstripHyphens hc)
    · rw [if_neg hlen]
      intro c hc
      exact hc
  have hlen5 : S5.length ≤ 63 := by
    rw [hS5]
    by_cases hlen : S4.length > 63
    · rw [if_pos hlen]
      calc (rstripHyphens (S4.take 63)).length
          ≤ (S4.take 63).length := rstripHyphens_length _
        _ ≤ 63 := List.length_take_le _ _
    · rw [if_neg hlen]
      exact Nat.le_of_not_lt hlen
  have hlast5 : ∀ c, S5.getLast? = some c → ¬c = '-' := by
    rw [hS5]
    by_cases hlen : S4.length > 63
    · rw [if_pos hlen]
      exact rstripHyphens_getLast _
    · rw [if_neg hlen]
      rw [hS4]
      show ∀ c, (rstripHyphens (lstripHyphens _)).getLast? = some c → ¬c = '-'
      exact rstripHyphens_getLast _
  refine ⟨?_, ?_, ?_, ?_⟩
  · intro c hc
    rw [hcore] at hc
    rcases List.mem_append.mp hc with h1 | h1
    · simp only [teamNameStart, List.mem_cons, List.not_mem_nil, or_false] at h1
      rcases h1 with rfl | rfl | rfl | rfl | rfl
      · exact Or.inl (by decide)
      · exact Or.inl (by decide)
      · exact Or.inl (by decide)
      · exact Or.inl (by decide)
      · exact Or.inr rfl
    · rcases hs4good c (hsub5 c h1) with h2 | h2
      · exact Or.inl h2
      · exact Or.inr h2
  · rw [hcore, List.length_append]
    have : teamNameStart.length = 5 := rfl
    omega
  · rw [hcore]
    rfl
  · by_cases h5 : S5 = []
    · left
      rw [hcore, h5, List.append_nil]
    · right
      rcases Option.isSome_iff_exists.mp (List.getLast?_isSome.mpr h5) with ⟨c, hc⟩
      refine ⟨c, ?_, ?_⟩
      · rw [hcore, List.getLast?_append, hc]
        rfl
      · have hmem : c ∈ S5 := List.mem_of_getLast?_eq_some hc
        rcases hs4good c (hsub5 c hmem) with h2 | h2
        · exact h2
        · exact absurd h2 (hlast5 c hc)

/-- C2 (counterexample): the claim's 63-character bound and unconditional
alphanumeric ending are false — the source truncates to 63 characters
*before* prepending the 5-character `team-` prefix, so seventy `'a'`s yield a
68-character name, and the empty input yields `"team-"`, which ends in a
hyphen. -/
theorem C2_counterexample :
    ¬((sanitize_namespace_name (String.mk (List.replicate 70 'a'))).data.length
        ≤ 63) ∧
      (sanitize_namespace_name "").data.getLast? = some '-' := by
  decide

/-- C2 (amended): for every ASCII input string, `sanitize_namespace_name`
returns a non-empty string of length at most 68 consisting only of lowercase
ASCII alphanumerics and hyphens, beginning with an alphanumeric character
(the `'t'` of the `team-` prefix), and ending with an alphanumeric character
unless the sanitized core is empty, in which case the result is exactly
`"team-"` (ending in a hyphen). -/
theorem C2_amended_sanitize_grammar (team_name : String)
    (h : ∀ c ∈ team_name.data, c.toNat < 128) :
    (∀ c ∈ (sanitize_namespace_name team_name).data,
        isLowerAlnum c = true ∨ c = '-') ∧
      (sanitize_namespace_name team_name).data.length ≤ 68 ∧
      (sanitize_namespace_name team_name).data.head? = some 't' ∧
      ((sanitize_namespace_name team_name).data = teamNameStart ∨
        ∃ c, (sanitize_namespace_name team_name).data.getLast? = some c ∧
          isLowerAlnum c = true) :=
  sanitizeCore_props h

/-- C2 witness: the amended grammar instantiated at `"Backend Team!!"`. -/
theorem C2_amended_witness :
    (∀ c ∈ ("Backend Team!!" : String).data, c.toNat < 128) ∧
      ((∀ c ∈ (sanitize_namespace_name "Backend Team!!").data,
          isLowerAlnum c = true ∨ c = '-') ∧
        (sanitize_namespace_name "Backend Team!!").data.length ≤ 68 ∧
        (sanitize_namespace_name "Backend Team!!").data.head? = some 't' ∧
        ((sanitize_namespace_name "Backend Team!!").data = teamNameStart ∨
          ∃ c, (sanitize_namespace_name "Backend Team!!").data.getLast? = some c ∧
            isLowerAlnum c = true)) :=
  ⟨by decide, C2_amended_sanitize_grammar "Backend Team!!" (by decide)⟩
